import Mathlib

/-!
Verification development for the Verilator linter integration
(`src/linter/VerilatorLinter.ts`).

The development shallowly embeds the `lint` pipeline of `VerilatorLinter`:
the command builder, the stderr line splitter, the diagnostic-line regex
  `%(\w+)(-[A-Z0-9_]+)?:\s*(.*\.[a-zA-Z]+):(\d+):(?:\s*(\d+):)?\s*(\s*.+)`
with JavaScript backtracking semantics (leftmost match, greedy quantifiers
with longest-first backtracking), severity classification, numeric coercion
with the NaN fallbacks, file-path resolution, grouping by file, and the
clear-then-set publication into the diagnostic collection.

Strings are handled as `String` at the boundary and `List Char` inside the
matcher.  Machine numerics of the source (JS doubles) only ever hold small
naturals or NaN here; NaN is modelled as `Option.none`.
-/

namespace Verilator

/-- JS `\w` character class: `[A-Za-z0-9_]`. -/
def isWordChar (c : Char) : Bool := c.isAlpha || c.isDigit || c == '_'

/-- Character class `[A-Z0-9_]` of the diagnostic-code capture group. -/
def isCodeChar (c : Char) : Bool := ('A' ≤ c && c ≤ 'Z') || c.isDigit || c == '_'

/-- JS `\s` character class, restricted to the ASCII whitespace characters
that can occur in tool output: space, tab, vertical tab, form feed, CR, LF. -/
def isSpaceChar (c : Char) : Bool :=
  c == ' ' || c == '\t' || c == Char.ofNat 11 || c == Char.ofNat 12 || c == '\r' || c == '\n'

/-- JS `.` (without the `s` flag): any character except a line terminator. -/
def isDotChar (c : Char) : Bool := !(c == '\n') && !(c == '\r')

/-- Value of a digit string, as JS `Number` computes it on `\d+` captures. -/
def natOfDigits (l : List Char) : Nat :=
  l.foldl (fun n c => 10 * n + (c.toNat - '0'.toNat)) 0

/-- JS `Number(x) `for the arguments that occur in the parser: `none` stands
for `undefined` (whose conversion is NaN); a string of digits converts to its
value.  A `none` result models NaN. -/
def jsNumber : Option String → Option Int
  | none => none
  | some s => if s.data.all Char.isDigit then some (natOfDigits s.data : Nat) else none

/-- JS `String.prototype.startsWith`. -/
def jsStartsWith (s p : String) : Bool := p.data.isPrefixOf s.data

/-- The severity enumeration of the editor API (`DiagnosticSeverity`). -/
inductive DiagnosticSeverity
  | Error
  | Warning
  | Information
  | Hint
deriving DecidableEq, Repr

/-- `VerilatorLinter.getSeverity`: classify the severity keyword captured from
the tool output. -/
def getSeverity (severityString : String) : DiagnosticSeverity :=
  if jsStartsWith severityString "Error" then .Error
  else if jsStartsWith severityString "Warning" then .Warning
  else .Information

/-- The capture groups of a successful match of the diagnostic regex:
`rex[1]` (severity keyword), `rex[2]` without its hyphen (code, optional),
`rex[3]` (file), `rex[4]` (line), `rex[5]` (column, optional), `rex[6]`
(message). -/
structure MatchCaps where
  sev : List Char
  code : Option (List Char)
  file : List Char
  lineS : List Char
  colS : Option (List Char)
  msg : List Char
deriving DecidableEq, Repr

/-- Result of matching the part of the regex that starts at the `.*` of the
file-path group: the remaining captures plus the unconsumed remainder of the
line after the match. -/
structure TailRes where
  file : List Char
  lineS : List Char
  colS : Option (List Char)
  msg : List Char
  rem : List Char
deriving DecidableEq, Repr

/-- The capture group `(\s*.+)` at a fixed start position: inner `\s*` is
greedy (longest first), then `.+` takes the maximal run of `.`-characters.
Returns the captured text and the remainder after the match. -/
def innerMsg : List Char → Option (List Char × List Char)
  | [] => none
  | c :: rest =>
    if isSpaceChar c then
      match innerMsg rest with
      | some (m, r) => some (c :: m, r)
      | none =>
        if isDotChar c then some (c :: rest.takeWhile isDotChar, rest.dropWhile isDotChar)
        else none
    else
      if isDotChar c then some (c :: rest.takeWhile isDotChar, rest.dropWhile isDotChar)
      else none

/-- The trailing `\s*(\s*.+)` of the regex: the outer `\s*` (not captured) is
greedy, backtracking one character at a time when the capture group cannot
match after it. -/
def outerMsg : List Char → Option (List Char × List Char)
  | [] => none
  | c :: rest =>
    if isSpaceChar c then
      match outerMsg rest with
      | some (m, r) => some (m, r)
      | none => innerMsg (c :: rest)
    else innerMsg (c :: rest)

/-- Continuation after `:(\d+):` when the optional column group
`(?:\s*(\d+):)?` matches empty: the message part starts right after the
line-number colon. -/
def colAbsent (file digs r10 : List Char) : Option TailRes :=
  match outerMsg r10 with
  | some (m, rm) => some { file := file, lineS := digs, colS := none, msg := m, rem := rm }
  | none => none

/-- The optional column group `(?:\s*(\d+):)?` followed by the message part,
starting right after the line-number colon (`r10`).  The present branch is
tried first (its `\s*` and `(\d+)` runs are forced to be maximal because the
character after each in the pattern is outside the repeated class); when it
cannot complete — including when the message part after it cannot match —
the group matches empty and the message part restarts at `r10`. -/
def colPart (file digs r10 : List Char) : Option TailRes :=
  let r11 := r10.dropWhile isSpaceChar
  let digs2 := r11.takeWhile Char.isDigit
  let r12 := r11.dropWhile Char.isDigit
  match r12 with
  | [] => colAbsent file digs r10
  | c12 :: r13 =>
    if c12 = ':' then
      if digs2.isEmpty then colAbsent file digs r10
      else
        match outerMsg r13 with
        | some (m, rm) =>
          some { file := file, lineS := digs, colS := some digs2, msg := m, rem := rm }
        | none => colAbsent file digs r10
    else colAbsent file digs r10

/-- One backtracking attempt of the file-path group: `pre` is the text the
greedy `.*` consumed, `rest` is the remainder, which must match
`\.[a-zA-Z]+:(\d+):(?:\s*(\d+):)?\s*(\s*.+)`.  The runs of `[a-zA-Z]+` and
`(\d+)` are forced to be maximal because the character following each of
them in the pattern is outside the repeated class. -/
def tryAt (pre rest : List Char) : Option TailRes :=
  match rest with
  | [] => none
  | c :: r6 =>
    if c = '.' then
      let ext := r6.takeWhile Char.isAlpha
      let r7 := r6.dropWhile Char.isAlpha
      if ext.isEmpty then none
      else
        match r7 with
        | [] => none
        | c7 :: r8 =>
          if c7 = ':' then
            let digs := r8.takeWhile Char.isDigit
            let r9 := r8.dropWhile Char.isDigit
            if digs.isEmpty then none
            else
              match r9 with
              | [] => none
              | c9 :: r10 =>
                if c9 = ':' then colPart (pre ++ '.' :: ext) digs r10
                else none
          else none
    else none

/-- Greedy `.*` of the file-path group with longest-first backtracking:
attempt lengths `k, k-1, …, 0`, where only prefixes made of `.`-matchable
characters are admissible. -/
def tryDotStar (s : List Char) : Nat → Option TailRes
  | 0 => tryAt [] s
  | k + 1 =>
    if (s.take (k + 1)).all isDotChar then
      match tryAt (s.take (k + 1)) (s.drop (k + 1)) with
      | some t => some t
      | none => tryDotStar s k
    else tryDotStar s k

/-- The regex after the first `:`: `\s*` (greedy; taking the maximal run is
complete here, because any match with a shorter run also matches with the
maximal run by shifting the skipped characters into `.*`), then the file-path
group. -/
def afterColon (sev : List Char) (code : Option (List Char)) (r5 : List Char) :
    Option (MatchCaps × List Char) :=
  let r6 := r5.dropWhile isSpaceChar
  match tryDotStar r6 ((r6.takeWhile isDotChar).length) with
  | some t =>
    some ({ sev := sev, code := code, file := t.file, lineS := t.lineS,
            colS := t.colS, msg := t.msg }, t.rem)
  | none => none

/-- Match the whole regex at the start of `s`: `%`, then the severity keyword
`(\w+)` (maximal, forced because the next pattern character is `-` or `:`),
then the optional code group `(-[A-Z0-9_]+)?` (present-first), then `:` and
the rest.  Returns the captures and the remainder after the match. -/
def matchAt : List Char → Option (MatchCaps × List Char)
  | [] => none
  | c :: r1 =>
    if c = '%' then
      let sev := r1.takeWhile isWordChar
      let r2 := r1.dropWhile isWordChar
      if sev.isEmpty then none
      else
        match r2 with
        | [] => none
        | c2 :: r3 =>
          if c2 = '-' then
            let cd := r3.takeWhile isCodeChar
            let r4 := r3.dropWhile isCodeChar
            if cd.isEmpty then none
            else
              match r4 with
              | [] => none
              | c4 :: r5 => if c4 = ':' then afterColon sev (some cd) r5 else none
          else if c2 = ':' then afterColon sev none r3
          else none
    else none

/-- JS `String.prototype.match` (and `search`) of the diagnostic regex:
leftmost successful start position wins.  Returns the captures together with
the length of `rex[0]` (the matched substring). -/
def findMatch : List Char → Option (MatchCaps × Nat)
  | [] => none
  | c :: t =>
    match matchAt (c :: t) with
    | some (caps, rest) => some (caps, (c :: t).length - rest.length)
    | none => findMatch t

/-- The configuration the `lint` callback reads: the
`verilog.linting.verilator.runAtFileLocation` flag and `workspace.rootPath`. -/
structure Config where
  runAtFileLocation : Bool
  rootPath : String
deriving DecidableEq, Repr

/-- One diagnostic as the parser constructs it.  The source builds a `Range`
from `(lineNum, colNum)` to `(lineNum, Number.MAX_VALUE)`; its start position
is recorded here, the end column being the fixed maximal sentinel. -/
structure Diag where
  severity : DiagnosticSeverity
  lineNum : Int
  colNum : Int
  message : String
  code : String
  source : String
deriving DecidableEq, Repr

/-- Node `path.isAbsolute` with POSIX semantics: a path is absolute iff it
starts with a separator. -/
def pathIsAbsolute (s : String) : Bool :=
  match s.data with
  | '/' :: _ => true
  | _ => false

/-- Node `path.join` with POSIX semantics, on already-normalized segments
(no `.`/`..` components and no doubled separators, which is the shape of
every path the linter joins). -/
def pathJoin (a b : String) : String :=
  if a = "" then b
  else if b = "" then a
  else if a.data.getLast? = some '/' then a ++ b
  else a ++ "/" ++ b

/-- The per-line body of the parsing loop in `lint`.  Returns the diagnostic
(keyed by its resolved file path) the line contributes, if any, together with
the log entries the line produces.  Mirrors the source: a failed `search` is
skipped silently; a successful search re-matches, checks `rex[0].length > 0`
(logging `failed to parse error` otherwise), resolves the file name, converts
line and column with the NaN fallbacks, and drops the diagnostic when the
line number is NaN. -/
def parseLine (cfg : Config) (line : String) : Option (String × Diag) × List String :=
  match findMatch line.data with
  | none => (none, [])
  | some (caps, rex0len) =>
    if 0 < rex0len then
      let severity := getSeverity (String.mk caps.sev)
      let code := match caps.code with
        | some c => String.mk c
        | none => "verilator"
      let fileStr := String.mk caps.file
      let filename :=
        if cfg.runAtFileLocation then fileStr
        else if pathIsAbsolute fileStr then fileStr
        else pathJoin cfg.rootPath fileStr
      let lineNum : Option Int := (jsNumber (some (String.mk caps.lineS))).map (fun n => n - 1)
      let colNum : Int := (((jsNumber (caps.colS.map String.mk)).map (fun n => n - 1)).getD 0)
      match lineNum with
      | some ln =>
        (some (filename,
          { severity := severity, lineNum := ln, colNum := colNum,
            message := String.mk caps.msg, code := code, source := "verilator" }), [])
      | none => (none, [])
    else
      (none, ["failed to parse error: " ++ line])

/-- `stderr.split(/\r?\n/g)`: split on LF or CRLF; a lone CR is kept. -/
def splitLinesAux : List Char → List Char → List (List Char)
  | [], acc => [acc.reverse]
  | '\r' :: '\n' :: t, acc => acc.reverse :: splitLinesAux t []
  | '\n' :: t, acc => acc.reverse :: splitLinesAux t []
  | c :: t, acc => splitLinesAux t (c :: acc)

/-- Split captured stderr text into lines, as `stderr.split(/\r?\n/g)` does. -/
def splitLines (s : String) : List String :=
  (splitLinesAux s.data []).map String.mk

/-- The per-file diagnostic grouping (`diagnostics` object in the source):
an association list keyed by file name, in key-insertion order. -/
abbrev Store := List (String × List Diag)

/-- Add one diagnostic under its file name: a fresh key is appended with a
singleton list, an existing key has the diagnostic pushed at the end. -/
def addDiag (m : Store) (f : String) (d : Diag) : Store :=
  if m.any (fun e => e.1 = f) then
    m.map (fun e => if e.1 = f then (e.1, e.2 ++ [d]) else e)
  else m ++ [(f, [d])]

/-- The parsing loop over all stderr lines: fold `parseLine` over the lines,
grouping diagnostics by file and accumulating log entries in order. -/
def processLines (cfg : Config) (lines : List String) : Store × List String :=
  lines.foldl
    (fun acc line =>
      match parseLine cfg line with
      | (some (f, d), logs) => (addDiag acc.1 f d, acc.2 ++ logs)
      | (none, logs) => (acc.1, acc.2 ++ logs))
    ([], [])

/-- `DiagnosticCollection.set` for one file: replace the entry of an existing
key, append a new key at the end. -/
def collSet (st : Store) (f : String) (ds : List Diag) : Store :=
  if st.any (fun e => e.1 = f) then
    st.map (fun e => if e.1 = f then (f, ds) else e)
  else st ++ [(f, ds)]

/-- The completion callback of `child.exec` in `lint`: log the launch error
if any, parse all stderr lines, then publish by clearing the previously
published store unconditionally and setting each file's diagnostics.
`error` is the launch error (`none` when the process ran), `prior` the
diagnostic collection published before this run. -/
def runCallback (cfg : Config) (error : Option String) (stderr : String) (prior : Store) :
    Store × List String :=
  let errLogs := match error with
    | some m => [m]
    | none => []
  let parsed := processLines cfg (splitLines stderr)
  let cleared : Store := []
  let published := parsed.1.foldl (fun st e => collSet st e.1 e.2) cleared
  (published, errLogs ++ parsed.2 ++ ["undefined errors/warnings returned"])

/-- The document inputs `lint` reads: `doc.uri.fsPath` and `doc.languageId`. -/
structure DocInput where
  uri : String
  languageId : String
deriving DecidableEq, Repr

/-- `docUri.lastIndexOf('/')` (the non-Windows branch), as an `Option`:
`none` models the `-1` result. -/
def lastSlashIndexAux : List Char → Nat → Option Nat → Option Nat
  | [], _, best => best
  | c :: t, i, best => lastSlashIndexAux t (i + 1) (if c == '/' then some i else best)

/-- Index of the last `/` in a string, `none` when there is none. -/
def lastSlashIndex (l : List Char) : Option Nat := lastSlashIndexAux l 0 none

/-- `docUri.substr(0, lastIndex)`: the containing folder of the document.
When there is no separator, `substr(0, -1)` yields the empty string. -/
def docFolderOf (uri : String) : String :=
  match lastSlashIndex uri.data with
  | some i => String.mk (uri.data.take i)
  | none => ""

/-- `Array.prototype.join(' ')` on the command slots. -/
def jsJoinSpace : List String → String
  | [] => ""
  | [s] => s
  | s :: t => s ++ " " ++ jsJoinSpace t

/-- Command construction of `lint` on a non-Windows host (`isWindows = false`,
so the binary keeps its bare name and no WSL path translation runs): the six
slots `[path.join(verilatorPath, 'verilator'), svArgs, '--lint-only',
'-I' + docFolder, verilatorArgs, docUri]` joined with single spaces. -/
def buildCommand (verilatorPath verilatorArgs : String) (doc : DocInput) : String :=
  let docUri := doc.uri
  let docFolder := docFolderOf docUri
  let svArgs := if doc.languageId = "systemverilog" then "-sv" else ""
  let verilator := "verilator"
  jsJoinSpace
    [pathJoin verilatorPath verilator, svArgs, "--lint-only",
     "-I" ++ docFolder, verilatorArgs, docUri]

/-- Two consecutive spaces occur in the string. -/
def hasDoubleSpace : List Char → Bool
  | [] => false
  | [_] => false
  | c :: c2 :: t => (c == ' ' && c2 == ' ') || hasDoubleSpace (c2 :: t)

/-! ### Structural lemmas about the matcher -/

theorem length_dropWhile_le (p : Char → Bool) (l : List Char) :
    (l.dropWhile p).length ≤ l.length := by
  induction l with
  | nil => simp [List.dropWhile]
  | cons c t ih =>
    rw [List.dropWhile_cons]
    split
    · exact Nat.le_trans ih (Nat.le_succ _)
    · exact Nat.le_refl _

theorem innerMsg_rem_le : ∀ {t m r : List Char}, innerMsg t = some (m, r) →
    r.length ≤ t.length := by
  intro t
  induction t with
  | nil => intro m r h; simp [innerMsg] at h
  | cons c rest ih =>
    intro m r h
    unfold innerMsg at h
    split at h
    · split at h
      · rename_i m' r' heq
        injection h with h1
        injection h1 with _ h2
        subst h2
        exact Nat.le_trans (ih heq) (Nat.le_succ _)
      · split at h
        · injection h with h1
          injection h1 with _ h2
          subst h2
          exact Nat.le_trans (length_dropWhile_le _ _) (Nat.le_succ _)
        · exact absurd h (by simp)
    · split at h
      · injection h with h1
        injection h1 with _ h2
        subst h2
        exact Nat.le_trans (length_dropWhile_le _ _) (Nat.le_succ _)
      · exact absurd h (by simp)

theorem outerMsg_rem_le : ∀ {t m r : List Char}, outerMsg t = some (m, r) →
    r.length ≤ t.length := by
  intro t
  induction t with
  | nil => intro m r h; simp [outerMsg] at h
  | cons c rest ih =>
    intro m r h
    unfold outerMsg at h
    split at h
    · split at h
      · rename_i m' r' heq
        injection h with h1
        injection h1 with _ h2
        subst h2
        exact Nat.le_trans (ih heq) (Nat.le_succ _)
      · exact innerMsg_rem_le h
    · exact innerMsg_rem_le h

theorem colAbsent_some : ∀ {file digs r10 : List Char} {t : TailRes},
    colAbsent file digs r10 = some t →
    t.lineS = digs ∧ t.colS = none ∧ t.rem.length ≤ r10.length := by
  intro file digs r10 t h
  unfold colAbsent at h
  split at h
  · rename_i m rm heq
    injection h with h1
    subst h1
    exact ⟨rfl, rfl, outerMsg_rem_le heq⟩
  · exact absurd h (by simp)

theorem colPart_some : ∀ {file digs r10 : List Char} {t : TailRes},
    colPart file digs r10 = some t →
    t.lineS = digs ∧
    (∀ c, t.colS = some c → c ≠ [] ∧ c.all Char.isDigit = true) ∧
    t.rem.length ≤ r10.length := by
  intro file digs r10 t h
  simp only [colPart] at h
  split at h
  · obtain ⟨h1, h2, h3⟩ := colAbsent_some h
    exact ⟨h1, fun c hc => absurd (h2 ▸ hc) (by simp), h3⟩
  · rename_i c12 r13 heq12
    split at h
    · split at h
      · obtain ⟨h1, h2, h3⟩ := colAbsent_some h
        exact ⟨h1, fun c hc => absurd (h2 ▸ hc) (by simp), h3⟩
      · rename_i hne2
        split at h
        · rename_i m rm heqm
          injection h with h1
          subst h1
          refine ⟨rfl, ?_, ?_⟩
          · intro c hc
            injection hc with hc
            subst hc
            exact ⟨by simpa using hne2, List.all_takeWhile⟩
          · have hr13 : rm.length ≤ r13.length := outerMsg_rem_le heqm
            have hd : (List.dropWhile Char.isDigit (List.dropWhile isSpaceChar r10)).length
                ≤ (List.dropWhile isSpaceChar r10).length := length_dropWhile_le _ _
            have hs : (List.dropWhile isSpaceChar r10).length ≤ r10.length :=
              length_dropWhile_le _ _
            rw [heq12] at hd
            simp only [List.length_cons] at hd
            simp only [TailRes.rem]
            omega
        · obtain ⟨h1, h2, h3⟩ := colAbsent_some h
          exact ⟨h1, fun c hc => absurd (h2 ▸ hc) (by simp), h3⟩
    · obtain ⟨h1, h2, h3⟩ := colAbsent_some h
      exact ⟨h1, fun c hc => absurd (h2 ▸ hc) (by simp), h3⟩

theorem tryAt_some : ∀ {pre rest : List Char} {t : TailRes}, tryAt pre rest = some t →
    t.lineS ≠ [] ∧ t.lineS.all Char.isDigit = true ∧
    (∀ c, t.colS = some c → c ≠ [] ∧ c.all Char.isDigit = true) ∧
    t.rem.length ≤ rest.length := by
  intro pre rest t h
  simp only [tryAt] at h
  split at h
  · exact absurd h (by simp)
  · rename_i c r6
    split at h
    · split at h
      · exact absurd h (by simp)
      · rename_i hext
        split at h
        · exact absurd h (by simp)
        · rename_i c7 r8 heq7
          split at h
          · split at h
            · exact absurd h (by simp)
            · rename_i hdigs
              split at h
              · exact absurd h (by simp)
              · rename_i c9 r10 heq9
                split at h
                · obtain ⟨h1, h2, h3⟩ := colPart_some h
                  refine ⟨?_, ?_, h2, ?_⟩
                  · rw [h1]; simpa using hdigs
                  · rw [h1]; exact List.all_takeWhile
                  · have hr8 : (List.dropWhile Char.isDigit r8).length ≤ r8.length :=
                      length_dropWhile_le _ _
                    have hr6 : (List.dropWhile Char.isAlpha r6).length ≤ r6.length :=
                      length_dropWhile_le _ _
                    rw [heq9] at hr8
                    rw [heq7] at hr6
                    simp only [List.length_cons] at hr8 hr6 ⊢
                    omega
                · exact absurd h (by simp)
          · exact absurd h (by simp)
    · exact absurd h (by simp)

theorem tryDotStar_some : ∀ {s : List Char} {k : Nat} {t : TailRes},
    tryDotStar s k = some t →
    t.lineS ≠ [] ∧ t.lineS.all Char.isDigit = true ∧
    (∀ c, t.colS = some c → c ≠ [] ∧ c.all Char.isDigit = true) ∧
    t.rem.length ≤ s.length := by
  intro s k
  induction k with
  | zero =>
    intro t h
    simp only [tryDotStar] at h
    exact tryAt_some h
  | succ k ih =>
    intro t h
    simp only [tryDotStar] at h
    split at h
    · split at h
      · rename_i t' heq
        injection h with h1
        subst h1
        obtain ⟨h1, h2, h3, h4⟩ := tryAt_some heq
        refine ⟨h1, h2, h3, ?_⟩
        have := List.length_drop (k + 1) s
        omega
      · exact ih h
    · exact ih h

theorem afterColon_some : ∀ {sev : List Char} {code : Option (List Char)} {r5 : List Char}
    {caps : MatchCaps} {rest : List Char},
    afterColon sev code r5 = some (caps, rest) →
    caps.lineS ≠ [] ∧ caps.lineS.all Char.isDigit = true ∧
    (∀ c, caps.colS = some c → c ≠ [] ∧ c.all Char.isDigit = true) ∧
    rest.length ≤ r5.length := by
  intro sev code r5 caps rest h
  simp only [afterColon] at h
  split at h
  · rename_i t heq
    injection h with h1
    injection h1 with h1 h2
    subst h1
    subst h2
    obtain ⟨h1, h2, h3, h4⟩ := tryDotStar_some heq
    refine ⟨h1, h2, h3, ?_⟩
    have : (List.dropWhile isSpaceChar r5).length ≤ r5.length := length_dropWhile_le _ _
    omega
  · exact absurd h (by simp)

theorem matchAt_some : ∀ {s : List Char} {caps : MatchCaps} {rest : List Char},
    matchAt s = some (caps, rest) →
    caps.lineS ≠ [] ∧ caps.lineS.all Char.isDigit = true ∧
    (∀ c, caps.colS = some c → c ≠ [] ∧ c.all Char.isDigit = true) ∧
    rest.length < s.length := by
  intro s caps rest h
  simp only [matchAt] at h
  split at h
  · exact absurd h (by simp)
  · rename_i c r1
    split at h
    · split at h
      · exact absurd h (by simp)
      · split at h
        · exact absurd h (by simp)
        · rename_i c2 r3 heq2
          split at h
          · split at h
            · exact absurd h (by simp)
            · split at h
              · exact absurd h (by simp)
              · rename_i c4 r5 heq4
                split at h
                · obtain ⟨h1, h2, h3, h4⟩ := afterColon_some h
                  refine ⟨h1, h2, h3, ?_⟩
                  have hr3 : (List.dropWhile isCodeChar r3).length ≤ r3.length :=
                    length_dropWhile_le _ _
                  have hr1 : (List.dropWhile isWordChar r1).length ≤ r1.length :=
                    length_dropWhile_le _ _
                  rw [heq4] at hr3
                  rw [heq2] at hr1
                  simp only [List.length_cons] at hr3 hr1 ⊢
                  omega
                · exact absurd h (by simp)
          · split at h
            · obtain ⟨h1, h2, h3, h4⟩ := afterColon_some h
              refine ⟨h1, h2, h3, ?_⟩
              have hr1 : (List.dropWhile isWordChar r1).length ≤ r1.length :=
                length_dropWhile_le _ _
              rw [heq2] at hr1
              simp only [List.length_cons] at hr1 ⊢
              omega
            · exact absurd h (by simp)
    · exact absurd h (by simp)

theorem findMatch_some : ∀ {s : List Char} {caps : MatchCaps} {n : Nat},
    findMatch s = some (caps, n) →
    caps.lineS ≠ [] ∧ caps.lineS.all Char.isDigit = true ∧
    (∀ c, caps.colS = some c → c ≠ [] ∧ c.all Char.isDigit = true) ∧
    0 < n := by
  intro s
  induction s with
  | nil => intro caps n h; simp [findMatch] at h
  | cons c t ih =>
    intro caps n h
    unfold findMatch at h
    split at h
    · rename_i caps' rest heq
      injection h with h1
      injection h1 with h1 h2
      subst h1
      subst h2
      obtain ⟨h1, h2, h3, h4⟩ := matchAt_some heq
      refine ⟨h1, h2, h3, ?_⟩
      simp only [List.length_cons] at h4 ⊢
      omega
    · exact ih h

theorem percent_mem_of_matchAt : ∀ {s : List Char} {r : MatchCaps × List Char},
    matchAt s = some r → '%' ∈ s := by
  intro s r h
  simp only [matchAt] at h
  split at h
  · exact absurd h (by simp)
  · rename_i c r1
    split at h
    · rename_i hc
      subst hc
      exact List.mem_cons_self _ _
    · exact absurd h (by simp)

theorem percent_mem_of_findMatch : ∀ {s : List Char} {r : MatchCaps × Nat},
    findMatch s = some r → '%' ∈ s := by
  intro s
  induction s with
  | nil => intro r h; simp [findMatch] at h
  | cons c t ih =>
    intro r h
    unfold findMatch at h
    split at h
    · rename_i caps rest heq
      exact percent_mem_of_matchAt heq
    · exact List.mem_cons_of_mem _ (ih h)

/-- The value `parseLine` takes on any line the grammar matches: the match is
nonempty, the captured line number is a digit run so its conversion is never
NaN, hence exactly one diagnostic results, keyed by the resolved file path. -/
theorem parseLine_matched (cfg : Config) (line : String) (caps : MatchCaps) (n : Nat)
    (h : findMatch line.data = some (caps, n)) :
    parseLine cfg line =
      (some ((if cfg.runAtFileLocation then String.mk caps.file
              else if pathIsAbsolute (String.mk caps.file) then String.mk caps.file
              else pathJoin cfg.rootPath (String.mk caps.file)),
             { severity := getSeverity (String.mk caps.sev),
               lineNum := (natOfDigits caps.lineS : Int) - 1,
               colNum := (match caps.colS with
                 | none => (0 : Int)
                 | some c => (natOfDigits c : Int) - 1),
               message := String.mk caps.msg,
               code := (match caps.code with
                 | some c => String.mk c
                 | none => "verilator"),
               source := "verilator" }), []) := by
  obtain ⟨hne, hdig, hcol, hpos⟩ := findMatch_some h
  have hlineNum : jsNumber (some (String.mk caps.lineS)) =
      some ((natOfDigits caps.lineS : Nat) : Int) := by
    simp only [jsNumber]
    rw [if_pos]
    exact hdig
  have hcolNum : (((jsNumber (caps.colS.map String.mk)).map (fun n => n - 1)).getD 0 : Int) =
      (match caps.colS with
       | none => (0 : Int)
       | some c => (natOfDigits c : Int) - 1) := by
    cases hc : caps.colS with
    | none => simp [jsNumber]
    | some c =>
      obtain ⟨hcne, hcdig⟩ := hcol c hc
      simp only [Option.map_some']
      simp only [jsNumber]
      rw [if_pos hcdig]
      simp
  simp only [parseLine, h]
  rw [if_pos hpos]
  rw [hlineNum, hcolNum]
  simp only [Option.map_some']

/-! ### Lemmas about grouping and publication -/

theorem mem_collSet {st : Store} {f : String} {ds : List Diag} {e : String × List Diag}
    (h : e ∈ collSet st f ds) : e ∈ st ∨ e = (f, ds) := by
  unfold collSet at h
  split at h
  · rcases List.mem_map.1 h with ⟨a, ha, hae⟩
    by_cases hf : a.1 = f
    · right
      rw [if_pos hf] at hae
      exact hae.symm
    · left
      rw [if_neg hf] at hae
      exact hae ▸ ha
  · rcases List.mem_append.1 h with h1 | h2
    · exact Or.inl h1
    · right
      simpa using h2

theorem mem_foldl_collSet : ∀ (l : List (String × List Diag)) (st : Store)
    (e : String × List Diag),
    e ∈ l.foldl (fun st p => collSet st p.1 p.2) st → e ∈ st ∨ e ∈ l := by
  intro l
  induction l with
  | nil => intro st e h; exact Or.inl h
  | cons p tl ih =>
    intro st e h
    simp only [List.foldl_cons] at h
    rcases ih (collSet st p.1 p.2) e h with h1 | h2
    · rcases mem_collSet h1 with h3 | h4
      · exact Or.inl h3
      · right
        rw [h4]
        exact List.mem_cons_self _ _
    · exact Or.inr (List.mem_cons_of_mem _ h2)

/-- Every diagnostic stored anywhere in the grouping satisfies `P`. -/
def StoreAll (P : Diag → Prop) (st : Store) : Prop :=
  ∀ e ∈ st, ∀ d ∈ e.2, P d

theorem storeAll_addDiag {P : Diag → Prop} {st : Store} {f : String} {d : Diag}
    (hst : StoreAll P st) (hd : P d) : StoreAll P (addDiag st f d) := by
  intro e he d' hd'
  unfold addDiag at he
  split at he
  · rcases List.mem_map.1 he with ⟨a, ha, hae⟩
    by_cases hf : a.1 = f
    · rw [if_pos hf] at hae
      subst hae
      rcases List.mem_append.1 hd' with h1 | h2
      · exact hst a ha d' h1
      · rw [List.mem_singleton.1 h2]
        exact hd
    · rw [if_neg hf] at hae
      subst hae
      exact hst a ha d' hd'
  · rcases List.mem_append.1 he with h1 | h2
    · exact hst e h1 d' hd'
    · rw [List.mem_singleton.1 h2] at hd'
      simp only at hd'
      rw [List.mem_singleton.1 hd']
      exact hd

theorem storeAll_processLines_aux {P : Diag → Prop} {cfg : Config}
    (hP : ∀ line f d logs, parseLine cfg line = (some (f, d), logs) → P d) :
    ∀ (lines : List String) (acc : Store × List String), StoreAll P acc.1 →
    StoreAll P ((lines.foldl
      (fun acc line =>
        match parseLine cfg line with
        | (some (f, d), logs) => (addDiag acc.1 f d, acc.2 ++ logs)
        | (none, logs) => (acc.1, acc.2 ++ logs)) acc).1) := by
  intro lines
  induction lines with
  | nil => intro acc h; exact h
  | cons l tl ih =>
    intro acc h
    simp only [List.foldl_cons]
    apply ih
    cases hp : parseLine cfg l with
    | mk o logs =>
      cases o with
      | none =>
        simp only [hp]
        exact h
      | some fd =>
        cases fd with
        | mk f d =>
          simp only [hp]
          exact storeAll_addDiag h (hP l f d logs hp)

theorem storeAll_processLines {P : Diag → Prop} {cfg : Config}
    (hP : ∀ line f d logs, parseLine cfg line = (some (f, d), logs) → P d)
    (lines : List String) : StoreAll P (processLines cfg lines).1 := by
  unfold processLines
  exact storeAll_processLines_aux hP lines ([], []) (by intro e he; simp at he)

/-- Any diagnostic a line contributes has `lineNum = captured value - 1 ≥ -1`,
since the captured value is a natural number. -/
theorem parseLine_line_ge (cfg : Config) (line : String) (f : String) (d : Diag)
    (logs : List String) (h : parseLine cfg line = (some (f, d), logs)) :
    -1 ≤ d.lineNum := by
  cases hf : findMatch line.data with
  | none =>
    simp only [parseLine, hf] at h
    exact absurd h (by simp)
  | some r =>
    cases r with
    | mk caps n =>
      rw [parseLine_matched cfg line caps n hf] at h
      injection h with h1 h2
      injection h1 with h1
      have hd := congrArg Prod.snd h1
      simp only at hd
      rw [← hd]
      simp only
      omega

/-! ### Claim theorems -/

/-- C1 (counterexample): the input line `This is plain noise` contains no `%`
and produces no diagnostic — but also produces zero log entries, not the one
"failed to parse" entry the claim requires. -/
theorem noise_line_no_log_cex :
    parseLine { runAtFileLocation := true, rootPath := "" } "This is plain noise"
      = (none, []) ∧
    ¬ ((parseLine { runAtFileLocation := true, rootPath := "" } "This is plain noise").2.length
      = 1) := by
  decide

/-- C1 (amended): an input line with no `%` at all produces no diagnostic and
no log entry: the regex cannot match anywhere in it, so the line is skipped
silently; the "failed to parse" branch requires a successful search with an
empty match, which cannot happen. -/
theorem noPercent_no_diag_no_log (cfg : Config) (line : String)
    (h : '%' ∉ line.data) : parseLine cfg line = (none, []) := by
  cases hf : findMatch line.data with
  | none => simp [parseLine, hf]
  | some r => exact absurd (percent_mem_of_findMatch hf) h

/-- C1 (witness): a concrete `%`-free line is skipped silently. -/
theorem noPercent_no_diag_no_log_witness :
    parseLine { runAtFileLocation := true, rootPath := "" }
        "make: Nothing to be done for all." = (none, []) :=
  noPercent_no_diag_no_log { runAtFileLocation := true, rootPath := "" }
    "make: Nothing to be done for all." (by decide)

/-- C2 (counterexample): the line `%Error: /tmp/a.sv:0: oops` matches the
grammar with captured line number `0`, which converts to diagnostic line
`-1`: the published set contains a diagnostic with a negative line number,
and nothing is dropped. -/
theorem published_negative_line_cex :
    (runCallback { runAtFileLocation := true, rootPath := "" } none
        "%Error: /tmp/a.sv:0: oops" []).1
      = [("/tmp/a.sv",
          [{ severity := DiagnosticSeverity.Error, lineNum := -1, colNum := 0,
             message := "oops", code := "verilator", source := "verilator" }])] ∧
    ¬ ((0 : Int) ≤ -1) := by
  constructor
  · rfl
  · decide

/-- C2 (amended): every diagnostic in the published set has
`lineNum ≥ -1` — the captured value is a digit run, so conversion never
fails and the drop branch never fires; the value is `captured - 1`, which is
negative exactly when the tool reports line `0`. -/
theorem published_line_ge (cfg : Config) (err : Option String) (stderr : String)
    (prior : Store) (f : String) (ds : List Diag) (d : Diag)
    (hmem : (f, ds) ∈ (runCallback cfg err stderr prior).1) (hd : d ∈ ds) :
    -1 ≤ d.lineNum := by
  have hall : StoreAll (fun d => -1 ≤ d.lineNum) (processLines cfg (splitLines stderr)).1 :=
    storeAll_processLines (fun line f d logs h => parseLine_line_ge cfg line f d logs h) _
  simp only [runCallback] at hmem
  rcases mem_foldl_collSet _ _ _ hmem with h1 | h2
  · simp at h1
  · exact hall (f, ds) h2 d hd

/-- C2 (witness): a concrete published diagnostic has `lineNum ≥ -1`. -/
theorem published_line_ge_witness :
    -1 ≤ ({ severity := DiagnosticSeverity.Error, lineNum := 0, colNum := 0,
            message := "m", code := "verilator", source := "verilator" } : Diag).lineNum :=
  published_line_ge { runAtFileLocation := false, rootPath := "/r" } none
    "%Error: a.sv:1: m" [] "/r/a.sv"
    [{ severity := DiagnosticSeverity.Error, lineNum := 0, colNum := 0,
       message := "m", code := "verilator", source := "verilator" }]
    { severity := DiagnosticSeverity.Error, lineNum := 0, colNum := 0,
      message := "m", code := "verilator", source := "verilator" }
    (by decide) (by decide)

/-- C3 (counterexample): on a launch failure (error set, empty stderr) the
callback still runs grouping and publication, and publication clears the
prior store: the previously published nonempty store is replaced by the
empty one, not left untouched. -/
theorem launch_failure_clears_cex :
    (runCallback { runAtFileLocation := false, rootPath := "/r" }
        (some "spawn verilator ENOENT") ""
        [("old.sv", [{ severity := DiagnosticSeverity.Warning, lineNum := 0, colNum := 0,
                       message := "m", code := "c", source := "verilator" }])]).1 = [] ∧
    ([("old.sv", [{ severity := DiagnosticSeverity.Warning, lineNum := 0, colNum := 0,
                    message := "m", code := "c", source := "verilator" }])] : Store) ≠ [] := by
  constructor
  · rfl
  · decide

/-- C3 (amended): when the child-process launch fails, the error message is
logged and parsing still runs on the (empty) captured stderr, producing no
diagnostics; the diagnostic store is then cleared and set to this empty
result — it is replaced, not left untouched, whatever was published
before. -/
theorem launch_failure_replaces_store (cfg : Config) (e : String) (prior : Store) :
    (runCallback cfg (some e) "" prior).1 = [] ∧
    (runCallback cfg (some e) "" prior).2
      = [e, "undefined errors/warnings returned"] := by
  constructor
  · rfl
  · rfl

/-- C4: parsing `%Error: /tmp/foo.sv:10: syntax error` with
run-at-file-location enabled publishes exactly one diagnostic: severity
Error, code "verilator", file `/tmp/foo.sv`, line 9, column 0, message
`syntax error`. -/
theorem scenarioA_error_line :
    (runCallback { runAtFileLocation := true, rootPath := "" } none
        "%Error: /tmp/foo.sv:10: syntax error" []).1
      = [("/tmp/foo.sv",
          [{ severity := DiagnosticSeverity.Error, lineNum := 9, colNum := 0,
             message := "syntax error", code := "verilator", source := "verilator" }])] := by
  rfl

/-- C5: parsing `%Warning-WIDTH: foo.sv:5:3: bit width mismatch` with
workspace root `/proj` and run-at-file-location disabled publishes one
diagnostic: severity Warning, code "WIDTH", file `/proj/foo.sv`, line 4,
column 2, message `bit width mismatch`. -/
theorem scenarioB_warning_line :
    (runCallback { runAtFileLocation := false, rootPath := "/proj" } none
        "%Warning-WIDTH: foo.sv:5:3: bit width mismatch" []).1
      = [("/proj/foo.sv",
          [{ severity := DiagnosticSeverity.Warning, lineNum := 4, colNum := 2,
             message := "bit width mismatch", code := "WIDTH", source := "verilator" }])] := by
  rfl

/-- C6: the severity classifier maps every keyword starting with "Error" to
Error, every keyword starting with "Warning" to Warning, and every other
keyword to Information. -/
theorem severity_classes (s : String) :
    (jsStartsWith s "Error" = true → getSeverity s = DiagnosticSeverity.Error) ∧
    (jsStartsWith s "Warning" = true → getSeverity s = DiagnosticSeverity.Warning) ∧
    (jsStartsWith s "Error" = false → jsStartsWith s "Warning" = false →
      getSeverity s = DiagnosticSeverity.Information) := by
  refine ⟨fun h => ?_, fun h => ?_, fun h1 h2 => ?_⟩
  · simp [getSeverity, h]
  · have hE : jsStartsWith s "Error" = false := by
      unfold jsStartsWith at h ⊢
      have hw : ("Warning" : String).data = 'W' :: "arning".data := rfl
      have he : ("Error" : String).data = 'E' :: "rror".data := rfl
      rw [hw] at h
      rw [he]
      cases hd : s.data with
      | nil => rw [hd] at h; simp [List.isPrefixOf] at h
      | cons c t =>
        rw [hd] at h
        have hcW : 'W' = c := by
          simp [List.isPrefixOf] at h
          exact h.1
        rw [← hcW]
        simp [List.isPrefixOf, show ('E' == 'W') = false from rfl]
    simp [getSeverity, hE, h]
  · simp [getSeverity, h1, h2]

/-- C6 (witness): concrete keywords of each class. -/
theorem severity_classes_witness :
    getSeverity "Error2" = DiagnosticSeverity.Error ∧
    getSeverity "Warningx" = DiagnosticSeverity.Warning ∧
    getSeverity "Info" = DiagnosticSeverity.Information :=
  ⟨(severity_classes "Error2").1 (by decide),
   (severity_classes "Warningx").2.1 (by decide),
   (severity_classes "Info").2.2 (by decide) (by decide)⟩

/-- C7: on every grammar-matched line, a diagnostic is produced whose column
is 0 when the column capture is absent, and the captured value minus one
when it is present (the capture is a digit run, so it is always numeric). -/
theorem column_rule (cfg : Config) (line : String) (caps : MatchCaps) (n : Nat)
    (h : findMatch line.data = some (caps, n)) :
    ∃ f d, (parseLine cfg line).1 = some (f, d) ∧
      (caps.colS = none → d.colNum = 0) ∧
      (∀ c, caps.colS = some c → d.colNum = (natOfDigits c : Int) - 1) := by
  refine ⟨(if cfg.runAtFileLocation then String.mk caps.file
           else if pathIsAbsolute (String.mk caps.file) then String.mk caps.file
           else pathJoin cfg.rootPath (String.mk caps.file)),
          { severity := getSeverity (String.mk caps.sev),
            lineNum := (natOfDigits caps.lineS : Int) - 1,
            colNum := (match caps.colS with
              | none => (0 : Int)
              | some c => (natOfDigits c : Int) - 1),
            message := String.mk caps.msg,
            code := (match caps.code with
              | some c => String.mk c
              | none => "verilator"),
            source := "verilator" }, ?_, ?_, ?_⟩
  · rw [parseLine_matched cfg line caps n h]
  · intro hc
    simp only [hc]
  · intro c hc
    simp only [hc]

/-- C7 (witness): on the matched line `%Warning-WIDTH: foo.sv:5:3: bit width
mismatch` the column capture is `3` and the diagnostic column is 2. -/
theorem column_rule_witness :
    ∃ f d, (parseLine { runAtFileLocation := false, rootPath := "/proj" }
        "%Warning-WIDTH: foo.sv:5:3: bit width mismatch").1 = some (f, d) ∧
      (({ sev := "Warning".data, code := some "WIDTH".data, file := "foo.sv".data,
          lineS := "5".data, colS := some "3".data,
          msg := "bit width mismatch".data } : MatchCaps).colS = none → d.colNum = 0) ∧
      (∀ c, ({ sev := "Warning".data, code := some "WIDTH".data, file := "foo.sv".data,
               lineS := "5".data, colS := some "3".data,
               msg := "bit width mismatch".data } : MatchCaps).colS = some c →
        d.colNum = (natOfDigits c : Int) - 1) :=
  column_rule { runAtFileLocation := false, rootPath := "/proj" }
    "%Warning-WIDTH: foo.sv:5:3: bit width mismatch"
    { sev := "Warning".data, code := some "WIDTH".data, file := "foo.sv".data,
      lineS := "5".data, colS := some "3".data, msg := "bit width mismatch".data }
    46 (by decide)

/-- C9: on every grammar-matched line, the diagnostic is keyed by the
captured path verbatim when run-at-file-location is enabled, else by the
captured path verbatim when absolute, else by the captured path joined to
the workspace root. -/
theorem filename_resolution (cfg : Config) (line : String) (caps : MatchCaps) (n : Nat)
    (h : findMatch line.data = some (caps, n)) :
    ∃ d, (parseLine cfg line).1 =
      some ((if cfg.runAtFileLocation then String.mk caps.file
             else if pathIsAbsolute (String.mk caps.file) then String.mk caps.file
             else pathJoin cfg.rootPath (String.mk caps.file)), d) := by
  refine ⟨{ severity := getSeverity (String.mk caps.sev),
            lineNum := (natOfDigits caps.lineS : Int) - 1,
            colNum := (match caps.colS with
              | none => (0 : Int)
              | some c => (natOfDigits c : Int) - 1),
            message := String.mk caps.msg,
            code := (match caps.code with
              | some c => String.mk c
              | none => "verilator"),
            source := "verilator" }, ?_⟩
  rw [parseLine_matched cfg line caps n h]

/-- C9 (witness): the matched line `%Error: /tmp/foo.sv:10: syntax error`
with run-at-file-location enabled is keyed by the captured path verbatim. -/
theorem filename_resolution_witness :
    ∃ d, (parseLine { runAtFileLocation := true, rootPath := "" }
        "%Error: /tmp/foo.sv:10: syntax error").1 =
      some ((if ({ runAtFileLocation := true, rootPath := "" } : Config).runAtFileLocation
             then String.mk "/tmp/foo.sv".data
             else if pathIsAbsolute (String.mk "/tmp/foo.sv".data)
             then String.mk "/tmp/foo.sv".data
             else pathJoin ({ runAtFileLocation := true, rootPath := "" } : Config).rootPath
               (String.mk "/tmp/foo.sv".data)), d) :=
  filename_resolution { runAtFileLocation := true, rootPath := "" }
    "%Error: /tmp/foo.sv:10: syntax error"
    { sev := "Error".data, code := none, file := "/tmp/foo.sv".data,
      lineS := "10".data, colS := none, msg := "syntax error".data }
    36 (by decide)

/-- C10: on every grammar-matched line the captured line-number field is a
nonempty digit string, its numeric conversion is never NaN (so the drop
branch is unreachable), and the line contributes exactly one diagnostic. -/
theorem matched_line_one_diag (cfg : Config) (line : String) (caps : MatchCaps) (n : Nat)
    (h : findMatch line.data = some (caps, n)) :
    caps.lineS ≠ [] ∧ caps.lineS.all Char.isDigit = true ∧
    jsNumber (some (String.mk caps.lineS)) ≠ none ∧
    ∃ f d, (parseLine cfg line).1 = some (f, d) := by
  obtain ⟨h1, h2, h3, h4⟩ := findMatch_some h
  refine ⟨h1, h2, ?_, ?_⟩
  · simp [jsNumber, h2]
  · refine ⟨(if cfg.runAtFileLocation then String.mk caps.file
             else if pathIsAbsolute (String.mk caps.file) then String.mk caps.file
             else pathJoin cfg.rootPath (String.mk caps.file)),
            { severity := getSeverity (String.mk caps.sev),
              lineNum := (natOfDigits caps.lineS : Int) - 1,
              colNum := (match caps.colS with
                | none => (0 : Int)
                | some c => (natOfDigits c : Int) - 1),
              message := String.mk caps.msg,
              code := (match caps.code with
                | some c => String.mk c
                | none => "verilator"),
              source := "verilator" }, ?_⟩
    rw [parseLine_matched cfg line caps n h]

/-- C10 (witness): the matched line `%Error: a.sv:3: x` has digit capture
`3` and contributes one diagnostic. -/
theorem matched_line_one_diag_witness :
    ("3".data ≠ ([] : List Char)) ∧ "3".data.all Char.isDigit = true ∧
    jsNumber (some (String.mk "3".data)) ≠ none ∧
    ∃ f d, (parseLine { runAtFileLocation := true, rootPath := "" }
        "%Error: a.sv:3: x").1 = some (f, d) :=
  matched_line_one_diag { runAtFileLocation := true, rootPath := "" }
    "%Error: a.sv:3: x"
    { sev := "Error".data, code := none, file := "a.sv".data,
      lineS := "3".data, colS := none, msg := "x".data }
    17 (by decide)

/-- C8 (counterexample): for a plain-Verilog file with no configured binary
directory and no extra arguments, both empty slots produce doubled spaces in
the built command, contradicting "an empty component does not introduce
doubled separators". -/
theorem buildCommand_double_space_cex :
    buildCommand "" "" { uri := "/proj/a.sv", languageId := "verilog" }
      = "verilator  --lint-only -I/proj  /proj/a.sv" ∧
    hasDoubleSpace ("verilator  --lint-only -I/proj  /proj/a.sv").data = true := by
  constructor
  · rfl
  · decide

/-- C8 (amended): the built command is the ordered concatenation
[binary] [language flag] --lint-only [include flag] [extra args] [file]
with a single space between adjacent slots, and the SystemVerilog flag
occupies its slot iff the language tag is `systemverilog`; an empty slot
keeps its separators, so two consecutive spaces appear around it. -/
theorem buildCommand_slots (vp va : String) (doc : DocInput) :
    (buildCommand vp va doc).data =
      (pathJoin vp "verilator").data ++ [' '] ++
        (if doc.languageId = "systemverilog" then "-sv" else "").data ++ [' '] ++
        "--lint-only".data ++ [' '] ++ ['-', 'I'] ++
        (docFolderOf doc.uri).data ++ [' '] ++ va.data ++ [' '] ++ doc.uri.data ∧
    ((if doc.languageId = "systemverilog" then "-sv" else "") = "-sv"
      ↔ doc.languageId = "systemverilog") := by
  constructor
  · simp only [buildCommand, jsJoinSpace, String.data_append,
      show (" " : String).data = [' '] from rfl,
      show ("-I" : String).data = ['-', 'I'] from rfl]
    simp [List.append_assoc]
  · by_cases hl : doc.languageId = "systemverilog"
    · simp [hl]
    · simp [hl, show ("" : String) ≠ "-sv" from by decide]

end Verilator
